import Mathlib

/-!
Verification of the catalog-generate-assets repository (canvas_generator.py
and v7_album_artwork.py) against its natural-language specification.

Shallow embedding conventions:
* A pixel frame (numpy array of a PIL image) is `List (List (List ℕ))`:
  rows × columns × channels, each channel value a uint8 sample.
* Python float arithmetic on pixel data is modelled exactly over ℚ; the
  store back into a uint8 numpy cell truncates toward zero, which for the
  non-negative convex combinations occurring here is `Int.floor`.
* Python's `random` module is modelled by passing the drawn values
  explicitly: `apply_smearing` receives, for every column, either `none`
  (the 10% coin came up tails) or `some (streak_height, y_start)` (the
  values returned by the two `randint` calls).  A draw outside the ranges
  `randint` can produce makes `random.randint` raise `ValueError` in the
  source, which the surrounding `except` turns into returning the input
  image unchanged; the embedding mirrors that with an admissibility gate.
-/

namespace CanvasGenerator

/-- A pixel: the list of its channel samples (uint8 values as ℕ). -/
abbrev Pixel := List ℕ

/-- A row of the frame: one pixel per column. -/
abbrev Row := List Pixel

/-- A frame: rows of pixels, as `np.array(image)` lays it out. -/
abbrev Frame := List Row

/-- Spotify Canvas minimum width (canvas_generator.py line 12). -/
def TARGET_WIDTH : ℕ := 720

/-- Spotify Canvas minimum height (canvas_generator.py line 13). -/
def TARGET_HEIGHT : ℕ := 1280

/-- The blend weight `alpha = 1.0 - ((y - y_start) / streak_height)` of
canvas_generator.py line 46, as a function of the offset `d = y - y_start`
into the run and the run length `streak_height`. -/
def smearAlpha (streak_height d : ℕ) : ℚ :=
  1 - (d : ℚ) / (streak_height : ℚ)

/-- One channel of `img_array[y] = img_array[y] * alpha + img_array[y-1] * (1-alpha)`
(line 47): the float convex combination, truncated on the store back into
the uint8 array. -/
def blendChannel (alpha : ℚ) (cur above : ℕ) : ℕ :=
  (⌊(cur : ℚ) * alpha + (above : ℚ) * (1 - alpha)⌋).toNat

/-- The whole-row blend of line 47 (numpy broadcasts over the full row and
all channels). -/
def blendRows (alpha : ℚ) (cur above : Row) : Row :=
  List.zipWith (fun p q => List.zipWith (blendChannel alpha) p q) cur above

/-- The body of the inner loop of `apply_smearing` (lines 44-47): for one
`y`, if `y > 0`, overwrite row `y` with its blend against row `y - 1`
(which may itself already have been smeared, as in the in-place numpy
update). -/
def smearRowStep (streak_height y_start : ℕ) (rows : Frame) (y : ℕ) : Frame :=
  if 0 < y then
    rows.set y (blendRows (smearAlpha streak_height (y - y_start))
      (rows.getD y []) (rows.getD (y - 1) []))
  else rows

/-- One streak (lines 42-47): `for y in range(y_start, min(y_start + streak_height, height))`. -/
def applyStreak (streak_height y_start : ℕ) (rows : Frame) : Frame :=
  (List.range' y_start (min (y_start + streak_height) rows.length - y_start)).foldl
    (smearRowStep streak_height y_start) rows

/-- One column's random decision: `none` when `random.random() < 0.1` failed,
otherwise the pair `(streak_height, y_start)` drawn by the two `randint`
calls of lines 42-43. -/
abbrev SmearDecision := Option (ℕ × ℕ)

/-- A decision is admissible for a frame of height `height` and strength
bound `strength` when `randint(10, strength)` and
`randint(0, height - streak_height)` could actually return it without
raising `ValueError`. -/
def decisionAdmissible (strength height : ℕ) : SmearDecision → Bool
  | none => true
  | some (streak_height, y_start) =>
    10 ≤ streak_height && streak_height ≤ strength && y_start + streak_height ≤ height

/-- `apply_smearing` (canvas_generator.py lines 35-51) with the random
draws made explicit, one `SmearDecision` per column.  If every decision is
one `random.randint` could have produced, the streaks are applied in
column order; otherwise `randint` raises `ValueError`, the broad `except`
of lines 49-51 catches it and the original image is returned. -/
def apply_smearing (decisions : List SmearDecision) (strength : ℕ)
    (image : Frame) : Frame :=
  if decisions.all (decisionAdmissible strength image.length) then
    decisions.foldl (fun rows d =>
      match d with
      | none => rows
      | some (streak_height, y_start) => applyStreak streak_height y_start rows) image
  else image

/-- All channel samples of the frame are zero. -/
def AllBlack (f : Frame) : Prop :=
  ∀ row ∈ f, ∀ p ∈ row, ∀ v ∈ p, v = 0

/-- The frame is an `h × w` grid of pixels with `c` channels each. -/
def HasShape (f : Frame) (h w c : ℕ) : Prop :=
  f.length = h ∧ ∀ row ∈ f, row.length = w ∧ ∀ p ∈ row, p.length = c

lemma foldl_inv {α β : Type _} (P : β → Prop) (g : β → α → β)
    (hg : ∀ b a, P b → P (g b a)) :
    ∀ (l : List α) (init : β), P init → P (l.foldl g init) := by
  intro l
  induction l with
  | nil => intro init h; exact h
  | cons x xs ih => intro init h; exact ih _ (hg _ _ h)

lemma head?_set_pos (l : Frame) (y : ℕ) (hy : 0 < y) (v : Row) :
    (l.set y v).head? = l.head? := by
  cases l with
  | nil => simp
  | cons a t =>
    cases y with
    | zero => exact absurd hy (lt_irrefl 0)
    | succ n => rfl

lemma smearRowStep_head? (sh ys : ℕ) (rows : Frame) (y : ℕ) :
    (smearRowStep sh ys rows y).head? = rows.head? := by
  unfold smearRowStep
  split
  · exact head?_set_pos _ _ (by assumption) _
  · rfl

lemma applyStreak_head? (sh ys : ℕ) (rows : Frame) :
    (applyStreak sh ys rows).head? = rows.head? := by
  unfold applyStreak
  exact foldl_inv (fun f => f.head? = rows.head?) _
    (fun b a hb => (smearRowStep_head? sh ys b a).trans hb) _ _ rfl

lemma mem_zipWith {α β γ : Type _} {f : α → β → γ} :
    ∀ {l1 : List α} {l2 : List β} {c : γ},
      c ∈ List.zipWith f l1 l2 → ∃ a ∈ l1, ∃ b ∈ l2, c = f a b := by
  intro l1
  induction l1 with
  | nil => intro l2 c hc; simp [List.zipWith] at hc
  | cons a t ih =>
    intro l2 c hc
    cases l2 with
    | nil => simp [List.zipWith] at hc
    | cons b s =>
      simp only [List.zipWith, List.mem_cons] at hc
      rcases hc with rfl | hc
      · exact ⟨a, by simp, b, by simp, rfl⟩
      · obtain ⟨x, hx, y, hy, rfl⟩ := ih hc
        exact ⟨x, by simp [hx], y, by simp [hy], rfl⟩

lemma blendRows_shape {w c : ℕ} {r1 r2 : Row} (alpha : ℚ)
    (h1 : r1.length = w ∧ ∀ p ∈ r1, p.length = c)
    (h2 : r2.length = w ∧ ∀ p ∈ r2, p.length = c) :
    (blendRows alpha r1 r2).length = w ∧ ∀ p ∈ blendRows alpha r1 r2, p.length = c := by
  constructor
  · rw [blendRows, List.length_zipWith, h1.1, h2.1]; exact min_self w
  · intro p hp
    obtain ⟨a, ha, b, hb, rfl⟩ := mem_zipWith hp
    rw [List.length_zipWith, h1.2 a ha, h2.2 b hb]
    exact min_self c

lemma getD_mem_or_nil (l : Frame) (y : ℕ) : l.getD y [] ∈ l ∨ l.getD y [] = [] := by
  rw [List.getD_eq_getElem?_getD]
  cases h : l[y]? with
  | none => right; rfl
  | some r => left; simpa using List.getElem?_mem h

lemma smearRowStep_shape {hgt w c : ℕ} (sh ys : ℕ) (rows : Frame) (y : ℕ)
    (hs : HasShape rows hgt w c) : HasShape (smearRowStep sh ys rows y) hgt w c := by
  unfold smearRowStep
  split
  · by_cases hy : y < rows.length
    · refine ⟨by rw [List.length_set]; exact hs.1, ?_⟩
      intro row hrowmem
      rcases List.mem_or_eq_of_mem_set hrowmem with hm | rfl
      · exact hs.2 _ hm
      · have hyd : rows.getD y [] ∈ rows := by
          rw [List.getD_eq_getElem?_getD, List.getElem?_eq_getElem hy]
          exact List.getElem_mem hy
        have hyd1 : rows.getD (y - 1) [] ∈ rows := by
          have : y - 1 < rows.length := lt_of_le_of_lt (Nat.sub_le y 1) hy
          rw [List.getD_eq_getElem?_getD, List.getElem?_eq_getElem this]
          exact List.getElem_mem this
        exact blendRows_shape _ (hs.2 _ hyd) (hs.2 _ hyd1)
    · rw [List.set_eq_of_length_le (le_of_not_lt hy)]
      exact hs
  · exact hs

lemma applyStreak_shape {hgt w c : ℕ} (sh ys : ℕ) (rows : Frame)
    (hs : HasShape rows hgt w c) : HasShape (applyStreak sh ys rows) hgt w c := by
  unfold applyStreak
  exact foldl_inv (fun f => HasShape f hgt w c) _
    (fun b a hb => smearRowStep_shape sh ys b a hb) _ _ hs

lemma blendChannel_zero (alpha : ℚ) : blendChannel alpha 0 0 = 0 := by
  simp [blendChannel]

lemma blendRows_black {r1 r2 : Row} (alpha : ℚ)
    (h1 : ∀ p ∈ r1, ∀ v ∈ p, v = 0) (h2 : ∀ p ∈ r2, ∀ v ∈ p, v = 0) :
    ∀ p ∈ blendRows alpha r1 r2, ∀ v ∈ p, v = 0 := by
  intro p hp v hv
  obtain ⟨a, ha, b, hb, rfl⟩ := mem_zipWith hp
  obtain ⟨x, hx, y, hy, rfl⟩ := mem_zipWith hv
  rw [h1 a ha x hx, h2 b hb y hy]
  exact blendChannel_zero alpha

lemma getD_black {rows : Frame} (hb : AllBlack rows) (y : ℕ) :
    ∀ p ∈ rows.getD y [], ∀ v ∈ p, v = 0 := by
  rcases getD_mem_or_nil rows y with hm | hm
  · exact hb _ hm
  · rw [hm]; intro p hp; simp at hp

lemma smearRowStep_black (sh ys : ℕ) (rows : Frame) (y : ℕ)
    (hb : AllBlack rows) : AllBlack (smearRowStep sh ys rows y) := by
  unfold smearRowStep
  split
  · intro row hrow
    rcases List.mem_or_eq_of_mem_set hrow with hm | rfl
    · exact hb _ hm
    · exact blendRows_black _ (getD_black hb y) (getD_black hb (y - 1))
  · exact hb

lemma applyStreak_black (sh ys : ℕ) (rows : Frame)
    (hb : AllBlack rows) : AllBlack (applyStreak sh ys rows) := by
  unfold applyStreak
  exact foldl_inv AllBlack _ (fun b a h => smearRowStep_black sh ys b a h) _ _ hb

/-- C3: in `apply_smearing`, the blend weight applied to the row at offset
`d` of a run of length `streak_height` is `1 - d / streak_height`: it is
`1.0` at the top of the run (`d = 0`), decays linearly (each step down
subtracts `1 / streak_height`), reaches `0.0` at the bottom boundary of
the run (`d = streak_height`), and the row update blends the current row
(weight `alpha`) against the row immediately above it (weight
`1 - alpha`). -/
theorem smearing_weight_linear (streak_height : ℕ) (hpos : 0 < streak_height) :
    smearAlpha streak_height 0 = 1 ∧
    smearAlpha streak_height streak_height = 0 ∧
    (∀ d : ℕ, smearAlpha streak_height (d + 1) =
      smearAlpha streak_height d - 1 / (streak_height : ℚ)) ∧
    (∀ (rows : Frame) (y_start y : ℕ), 0 < y →
      smearRowStep streak_height y_start rows y =
        rows.set y (blendRows (smearAlpha streak_height (y - y_start))
          (rows.getD y []) (rows.getD (y - 1) []))) := by
  have hne : ((streak_height : ℚ)) ≠ 0 := Nat.cast_ne_zero.mpr hpos.ne'
  refine ⟨by simp [smearAlpha], ?_, ?_, ?_⟩
  · rw [smearAlpha, div_self hne, sub_self]
  · intro d
    rw [smearAlpha, smearAlpha]
    push_cast
    field_simp
    ring
  · intro rows y_start y hy
    rw [smearRowStep, if_pos hy]

/-- C3 witness: the weight facts instantiated at run length 10. -/
theorem smearing_weight_linear_witness :
    0 < 10 ∧
    (smearAlpha 10 0 = 1 ∧
     smearAlpha 10 10 = 0 ∧
     (∀ d : ℕ, smearAlpha 10 (d + 1) = smearAlpha 10 d - 1 / ((10 : ℕ) : ℚ)) ∧
     (∀ (rows : Frame) (y_start y : ℕ), 0 < y →
       smearRowStep 10 y_start rows y =
         rows.set y (blendRows (smearAlpha 10 (y - y_start))
           (rows.getD y []) (rows.getD (y - 1) [])))) :=
  ⟨by norm_num, smearing_weight_linear 10 (by norm_num)⟩

/-- C4: `apply_smearing` preserves the frame's pixel dimensions and channel
count for every strength and every sequence of random draws, and an
all-black input frame stays all-black regardless of the random draws. -/
theorem apply_smearing_shape_black (decisions : List SmearDecision) (strength : ℕ)
    (image : Frame) (hgt w c : ℕ) :
    (HasShape image hgt w c → HasShape (apply_smearing decisions strength image) hgt w c) ∧
    (AllBlack image → AllBlack (apply_smearing decisions strength image)) := by
  constructor
  · intro hs
    rw [apply_smearing]
    split
    · refine foldl_inv (fun f => HasShape f hgt w c) _ ?_ _ _ hs
      intro b a h
      cases a with
      | none => exact h
      | some p => exact applyStreak_shape p.1 p.2 b h
    · exact hs
  · intro hb
    rw [apply_smearing]
    split
    · refine foldl_inv AllBlack _ ?_ _ _ hb
      intro b a h
      cases a with
      | none => exact h
      | some p => exact applyStreak_black p.1 p.2 b h
    · exact hb

/-- C4 witness: a concrete 1×1×1 all-black frame with one streak decision. -/
theorem apply_smearing_shape_black_witness :
    HasShape [[[0]]] 1 1 1 ∧ AllBlack [[[0]]] ∧
    HasShape (apply_smearing [some (10, 0)] 20 [[[0]]]) 1 1 1 ∧
    AllBlack (apply_smearing [some (10, 0)] 20 [[[0]]]) := by
  have h1 : HasShape [[[0]]] 1 1 1 := by unfold HasShape; decide
  have h2 : AllBlack [[[0]]] := by unfold AllBlack; decide
  exact ⟨h1, h2, (apply_smearing_shape_black [some (10, 0)] 20 [[[0]]] 1 1 1).1 h1,
    (apply_smearing_shape_black [some (10, 0)] 20 [[[0]]] 1 1 1).2 h2⟩

/-- `blend_images` / `Image.blend` (canvas_generator.py lines 53-55): the
per-channel convex combination `img1 * (1 - alpha) + img2 * alpha`,
truncated on the store back into uint8. -/
def blend_images (img1 img2 : Frame) (alpha : ℚ) : Frame :=
  List.zipWith (fun r1 r2 => List.zipWith (fun p1 p2 =>
    List.zipWith (fun (c1 c2 : ℕ) =>
      (⌊(c1 : ℚ) * (1 - alpha) + (c2 : ℚ) * alpha⌋).toNat) p1 p2) r1 r2) img1 img2

/-- One iteration of the outer loop of `create_crossfade_frames`
(canvas_generator.py lines 61-71) for frame index `i`: smear the current
frame and the cyclically-next frame, emit the smeared current frame, then
emit `k` transition frames with `alpha = (j + 1) / (k + 1)`, each smeared
again.  `draws` supplies the random decisions of the successive
`apply_smearing` calls (calls are numbered `i * (k + 2)`,
`i * (k + 2) + 1`, then `i * (k + 2) + 2 + j`). -/
def crossfadeBlock (draws : ℕ → List SmearDecision) (glitch_frames : List Frame)
    (k : ℕ) (i : ℕ) : List Frame :=
  let current_frame := apply_smearing (draws (i * (k + 2))) 40 (glitch_frames.getD i [])
  let next_frame := apply_smearing (draws (i * (k + 2) + 1)) 40
    (glitch_frames.getD ((i + 1) % glitch_frames.length) [])
  current_frame :: (List.range k).map (fun j =>
    apply_smearing (draws (i * (k + 2) + 2 + j)) 30
      (blend_images current_frame next_frame (((j : ℚ) + 1) / ((k : ℚ) + 1))))

/-- `create_crossfade_frames` (canvas_generator.py lines 57-72): the
concatenation of the per-frame blocks, in frame order. -/
def create_crossfade_frames (draws : ℕ → List SmearDecision)
    (glitch_frames : List Frame) (k : ℕ) : List Frame :=
  (List.range glitch_frames.length).flatMap (crossfadeBlock draws glitch_frames k)

/-- The wrap-around block as the spec describes it: the (smeared) last
original frame, followed by the `k` transitions toward the (smeared)
*first* original frame, the `j`-th blended with the same
`alpha = (j + 1) / (k + 1)` formula as every interior transition and
smeared again. -/
def wrapAroundBlockSpec (draws : ℕ → List SmearDecision) (glitch_frames : List Frame)
    (k : ℕ) : List Frame :=
  let L := glitch_frames.length
  let current_frame := apply_smearing (draws ((L - 1) * (k + 2))) 40
    (glitch_frames.getD (L - 1) [])
  let next_frame := apply_smearing (draws ((L - 1) * (k + 2) + 1)) 40
    (glitch_frames.getD 0 [])
  current_frame :: (List.range k).map (fun j =>
    apply_smearing (draws ((L - 1) * (k + 2) + 2 + j)) 30
      (blend_images current_frame next_frame (((j : ℚ) + 1) / ((k : ℚ) + 1))))

lemma crossfadeBlock_length (draws : ℕ → List SmearDecision) (glitch_frames : List Frame)
    (k i : ℕ) : (crossfadeBlock draws glitch_frames k i).length = k + 1 := by
  simp [crossfadeBlock]

lemma crossfade_prefix_length (draws : ℕ → List SmearDecision) (glitch_frames : List Frame)
    (k m : ℕ) :
    ((List.range m).flatMap (crossfadeBlock draws glitch_frames k)).length = m * (k + 1) := by
  rw [List.length_flatMap]
  have h : List.map (List.length ∘ crossfadeBlock draws glitch_frames k) (List.range m) =
      List.replicate m (k + 1) := by
    refine List.eq_replicate_iff.mpr ⟨by simp, ?_⟩
    intro b hb
    simp only [List.mem_map, Function.comp] at hb
    obtain ⟨i, _, rfl⟩ := hb
    exact crossfadeBlock_length draws glitch_frames k i
  rw [h, List.sum_replicate, smul_eq_mul]

/-- C1: `create_crossfade_frames` returns exactly `L * (k + 1)` frames for
an input of `L` frames and `k` transitions, and the final block of the
output — the wrap-around — blends the (smeared) last original frame toward
the (smeared) first original frame with the same
`alpha = (j + 1) / (k + 1)` formula as the interior transitions. -/
theorem create_crossfade_frames_spec (draws : ℕ → List SmearDecision)
    (glitch_frames : List Frame) (k : ℕ) :
    (create_crossfade_frames draws glitch_frames k).length =
      glitch_frames.length * (k + 1) ∧
    (0 < glitch_frames.length →
      (create_crossfade_frames draws glitch_frames k).drop
          ((glitch_frames.length - 1) * (k + 1)) =
        wrapAroundBlockSpec draws glitch_frames k) := by
  constructor
  · exact crossfade_prefix_length draws glitch_frames k glitch_frames.length
  · intro hL
    obtain ⟨n, hn⟩ : ∃ n, glitch_frames.length = n + 1 :=
      ⟨glitch_frames.length - 1, (Nat.succ_pred_eq_of_pos hL).symm⟩
    have hdrop : (create_crossfade_frames draws glitch_frames k).drop
        ((glitch_frames.length - 1) * (k + 1)) =
        crossfadeBlock draws glitch_frames k (glitch_frames.length - 1) := by
      rw [create_crossfade_frames, hn]
      rw [List.range_succ, List.flatMap_append]
      have h1 : (n + 1 - 1) * (k + 1) =
          ((List.range n).flatMap (crossfadeBlock draws glitch_frames k)).length := by
        rw [crossfade_prefix_length]
        simp
      rw [h1, List.drop_left]
      simp
    rw [hdrop]
    have hmod : (glitch_frames.length - 1 + 1) % glitch_frames.length = 0 := by
      have hs : glitch_frames.length - 1 + 1 = glitch_frames.length := by omega
      rw [hs]
      exact Nat.mod_self _
    rw [crossfadeBlock, wrapAroundBlockSpec, hmod]

/-- C1 witness: two concrete 1×1×1 frames, one transition frame, empty
random draws. -/
theorem create_crossfade_frames_spec_witness :
    (create_crossfade_frames (fun _ => []) [[[[0]]], [[[1]]]] 1).length = 2 * (1 + 1) ∧
    (create_crossfade_frames (fun _ => []) [[[[0]]], [[[1]]]] 1).drop ((2 - 1) * (1 + 1)) =
      wrapAroundBlockSpec (fun _ => []) [[[[0]]], [[[1]]]] 1 :=
  ⟨(create_crossfade_frames_spec (fun _ => []) [[[[0]]], [[[1]]]] 1).1,
   (create_crossfade_frames_spec (fun _ => []) [[[[0]]], [[[1]]]] 1).2 (by decide)⟩

/-- C10: `apply_smearing` never modifies the topmost row: the blend is only
applied to rows with index strictly greater than 0, so row 0 of the output
equals row 0 of the input for every strength and every sequence of random
draws. -/
theorem apply_smearing_top_row (decisions : List SmearDecision) (strength : ℕ)
    (image : Frame) :
    (apply_smearing decisions strength image).head? = image.head? := by
  rw [apply_smearing]
  split
  · refine foldl_inv (fun f : Frame => f.head? = image.head?) _ ?_ _ _ rfl
    intro b a h
    cases a with
    | none => exact h
    | some p => exact (applyStreak_head? p.1 p.2 b).trans h
  · rfl

/-- The aspect-fit resize of `create_spotify_canvas` (canvas_generator.py
lines 123-131): compare the source aspect ratio to the canvas aspect
ratio and scale the binding dimension; float arithmetic is modelled
exactly over ℚ and Python's `int()` truncation of the nonnegative scaled
value is `Int.floor`.  Returns `(new_width, new_height)`. -/
def resizeDims (w h : ℕ) : ℕ × ℕ :=
  if ((w : ℚ) / (h : ℚ)) > ((TARGET_WIDTH : ℚ) / (TARGET_HEIGHT : ℚ)) then
    ((⌊(TARGET_HEIGHT : ℚ) * ((w : ℚ) / (h : ℚ))⌋).toNat, TARGET_HEIGHT)
  else
    (TARGET_WIDTH, (⌊(TARGET_WIDTH : ℚ) / ((w : ℚ) / (h : ℚ))⌋).toNat)

/-- The center-crop box `(left, top, right, bottom)` of
`create_spotify_canvas` (lines 136-139); Python's `//` is floor division,
`Int.fdiv`. -/
def cropBox (nw nh : ℕ) : ℤ × ℤ × ℤ × ℤ :=
  let left := ((nw : ℤ) - (TARGET_WIDTH : ℤ)).fdiv 2
  let top := ((nh : ℤ) - (TARGET_HEIGHT : ℤ)).fdiv 2
  (left, top, left + (TARGET_WIDTH : ℤ), top + (TARGET_HEIGHT : ℤ))

/-- The crop box lies fully inside a `nw × nh` image. -/
def cropWithin (nw nh : ℕ) (box : ℤ × ℤ × ℤ × ℤ) : Prop :=
  0 ≤ box.1 ∧ 0 ≤ box.2.1 ∧ box.2.2.1 ≤ (nw : ℤ) ∧ box.2.2.2 ≤ (nh : ℤ)

/-- The pixel size `(right - left, bottom - top)` of the image
`Image.crop` returns for a box. -/
def boxSize (box : ℤ × ℤ × ℤ × ℤ) : ℤ × ℤ :=
  (box.2.2.1 - box.1, box.2.2.2 - box.2.1)

lemma boxSize_cropBox (nw nh : ℕ) :
    boxSize (cropBox nw nh) = ((TARGET_WIDTH : ℤ), (TARGET_HEIGHT : ℤ)) := by
  simp [boxSize, cropBox]

lemma cropWithin_of_bounds (nw nh : ℕ) (h1 : TARGET_WIDTH ≤ nw) (h2 : TARGET_HEIGHT ≤ nh) :
    cropWithin nw nh (cropBox nw nh) := by
  simp only [cropWithin, cropBox, TARGET_WIDTH, TARGET_HEIGHT] at *
  push_cast
  have e1 : ((nw : ℤ) - 720).fdiv 2 = ((nw : ℤ) - 720) / 2 :=
    Int.fdiv_eq_ediv _ (by norm_num)
  have e2 : ((nh : ℤ) - 1280).fdiv 2 = ((nh : ℤ) - 1280) / 2 :=
    Int.fdiv_eq_ediv _ (by norm_num)
  rw [e1, e2]
  omega

lemma resizeDims_bounds (w h : ℕ) (hw : 0 < w) (hh : 0 < h) :
    TARGET_WIDTH ≤ (resizeDims w h).1 ∧ TARGET_HEIGHT ≤ (resizeDims w h).2 := by
  have hwq : (0 : ℚ) < (w : ℚ) := by exact_mod_cast hw
  have hhq : (0 : ℚ) < (h : ℚ) := by exact_mod_cast hh
  simp only [resizeDims, TARGET_WIDTH, TARGET_HEIGHT]
  split
  · next hc =>
    refine ⟨?_, by simp⟩
    push_cast at hc
    have hfloor : (720 : ℤ) ≤ ⌊((1280 : ℕ) : ℚ) * ((w : ℚ) / (h : ℚ))⌋ := by
      rw [Int.le_floor]
      push_cast
      have h3 := mul_lt_mul_of_pos_left hc (show (0 : ℚ) < 1280 by norm_num)
      norm_num at h3
      linarith
    simp only
    omega
  · next hc =>
    refine ⟨by simp, ?_⟩
    have hle : (w : ℚ) / (h : ℚ) ≤ (720 : ℚ) / (1280 : ℚ) := by
      have := le_of_not_lt hc
      push_cast at this
      exact this
    have hfloor : (1280 : ℤ) ≤ ⌊((720 : ℕ) : ℚ) / ((w : ℚ) / (h : ℚ))⌋ := by
      rw [Int.le_floor]
      push_cast
      rw [le_div_iff₀ (div_pos hwq hhq)]
      have h3 := mul_le_mul_of_nonneg_left hle (show (0 : ℚ) ≤ 1280 by norm_num)
      norm_num at h3
      linarith
    simp only
    omega

/-- C2: for every positive source size, the aspect-fit resize/crop stage
of `create_spotify_canvas` yields a crop box of exactly
`TARGET_WIDTH × TARGET_HEIGHT` (720 × 1280) pixels lying fully within the
bounds of the resized image. -/
theorem aspect_fit_crop (w h : ℕ) (hw : 0 < w) (hh : 0 < h) :
    boxSize (cropBox (resizeDims w h).1 (resizeDims w h).2) =
      ((TARGET_WIDTH : ℤ), (TARGET_HEIGHT : ℤ)) ∧
    cropWithin (resizeDims w h).1 (resizeDims w h).2
      (cropBox (resizeDims w h).1 (resizeDims w h).2) :=
  ⟨boxSize_cropBox _ _,
   cropWithin_of_bounds _ _ (resizeDims_bounds w h hw hh).1 (resizeDims_bounds w h hw hh).2⟩

/-- C2 witness: a 1000 × 1000 source image (spec's end-to-end scenario 1). -/
theorem aspect_fit_crop_witness :
    (0 : ℕ) < 1000 ∧
    (boxSize (cropBox (resizeDims 1000 1000).1 (resizeDims 1000 1000).2) =
       ((TARGET_WIDTH : ℤ), (TARGET_HEIGHT : ℤ)) ∧
     cropWithin (resizeDims 1000 1000).1 (resizeDims 1000 1000).2
       (cropBox (resizeDims 1000 1000).1 (resizeDims 1000 1000).2)) :=
  ⟨by norm_num, aspect_fit_crop 1000 1000 (by norm_num) (by norm_num)⟩

end CanvasGenerator

namespace V7AlbumArtwork

/-- The chunks the `while` loop of `hash_audio_file` (v7_album_artwork.py
lines 27-32) reads: successive `f.read(65536)` results until an empty read
ends the loop.  `content` is the file's byte sequence. -/
def readChunks (content : List ℕ) : List (List ℕ) :=
  if content = [] then []
  else content.take 65536 :: readChunks (content.drop 65536)
termination_by content.length
decreasing_by
  have hne : content ≠ [] := by assumption
  have hpos : 0 < content.length := List.length_pos.mpr hne
  simp only [List.length_drop]
  omega

/-- `hash_audio_file` (v7_album_artwork.py lines 23-35).  `hashlib.sha256`
is modelled as a streaming hasher whose state is the byte sequence
absorbed so far: `sha256.update(data)` appends `data` to the state and
`hexdigest` applies the deterministic SHA-256 digest map — abstracted here
as the function parameter `sha256hex` — to the absorbed bytes. -/
def hash_audio_file (sha256hex : List ℕ → String) (content : List ℕ) : String :=
  sha256hex ((readChunks content).foldl (fun acc chunk => acc ++ chunk) [])

lemma readChunks_foldl (content : List ℕ) :
    ∀ acc : List ℕ,
      (readChunks content).foldl (fun acc chunk => acc ++ chunk) acc = acc ++ content := by
  induction content using readChunks.induct with
  | case1 =>
    intro acc
    rw [readChunks]
    simp
  | case2 c hc ih =>
    intro acc
    rw [readChunks, if_neg hc]
    simp only [List.foldl_cons]
    rw [ih (acc ++ c.take 65536), List.append_assoc, List.take_append_drop]

/-- C7: `hash_audio_file` feeds exactly the full byte content of the file,
in order, to the SHA-256 hasher — chunked 64 KiB reading yields the same
digest as hashing the whole content at once — so two files with identical
byte content get identical fingerprints. -/
theorem hash_audio_file_full_content (sha256hex : List ℕ → String) (content : List ℕ) :
    hash_audio_file sha256hex content = sha256hex content ∧
    (∀ c1 c2 : List ℕ, c1 = c2 →
      hash_audio_file sha256hex c1 = hash_audio_file sha256hex c2) := by
  constructor
  · rw [hash_audio_file, readChunks_foldl content []]
    rfl
  · intro c1 c2 h
    rw [h]

/-- C7 witness: a concrete digest function and concrete contents. -/
theorem hash_audio_file_full_content_witness :
    hash_audio_file (fun l => toString l.length) [7, 7, 7] =
      (fun l : List ℕ => toString l.length) [7, 7, 7] ∧
    hash_audio_file (fun l => toString l.length) [1, 2] =
      hash_audio_file (fun l => toString l.length) [1, 2] :=
  ⟨(hash_audio_file_full_content (fun l => toString l.length) [7, 7, 7]).1,
   (hash_audio_file_full_content (fun l => toString l.length) [0]).2 [1, 2] [1, 2] rfl⟩

/-- The spectrogram figure width in inches (v7_album_artwork.py line 57):
`min(max(duration / 4, 10), 40)`, scaling with the decoded audio duration
and clamped to the 10-40 inch range. -/
def spectrogramWidthInches (duration : ℚ) : ℚ :=
  min (max (duration / 4) 10) 40

/-- The explicit DPI of the matplotlib figure (line 65). -/
def spectrogramDPI : ℕ := 100

/-- The pixel width at which the figure is rendered: inches × DPI. -/
def figurePixelWidth (duration : ℚ) : ℚ :=
  spectrogramWidthInches duration * (spectrogramDPI : ℚ)

/-- C8: for a decoded duration of 8 seconds the width formula clamps to
the 10-inch minimum and the figure is rendered at 10 inches × 100 DPI =
1000 pixels wide. -/
theorem spectrogram_width_clamped_at_8s :
    spectrogramWidthInches 8 = 10 ∧ figurePixelWidth 8 = 1000 := by
  constructor <;>
    norm_num [spectrogramWidthInches, figurePixelWidth, spectrogramDPI]

/-- The square-crop selection and reported time span of
`create_improved_spectrogram` (v7_album_artwork.py lines 99-127).
`width × height` is the rendered spectrogram's pixel size captured before
the crop (line 99), `duration` the decoded audio duration (line 53).
Python `//` is `Int.fdiv`. -/
structure SpectrogramCrop where
  left : ℤ
  right : ℤ
  time_position : ℚ
  time_end : ℚ

/-- Lines 100-127: `square_size = height`;
`num_segments = max(1, width - square_size + 1)`; take the whole prefix if
at most one segment fits, otherwise the middle segment; report
`(left / width) * duration` and `(right / width) * duration`. -/
def spectrogramCrop (width height : ℕ) (duration : ℚ) : SpectrogramCrop :=
  let square_size : ℤ := (height : ℤ)
  let num_segments : ℤ := max 1 ((width : ℤ) - square_size + 1)
  let left : ℤ :=
    if num_segments ≤ 1 then 0 else ((width : ℤ) - square_size).fdiv 2
  let right : ℤ :=
    if num_segments ≤ 1 then min square_size (width : ℤ)
    else ((width : ℤ) - square_size).fdiv 2 + square_size
  { left := left, right := right,
    time_position := (left : ℚ) / (width : ℚ) * duration,
    time_end := (right : ℚ) / (width : ℚ) * duration }

/-- C6: the reported start and end times equal `left / W × D` and
`right / W × D` exactly (with `W` the pre-crop width), and the selected
crop region `[left, right)` lies within the image. -/
theorem spectrogram_time_mapping (width height : ℕ) (duration : ℚ) :
    (spectrogramCrop width height duration).time_position =
      (((spectrogramCrop width height duration).left : ℚ) / (width : ℚ)) * duration ∧
    (spectrogramCrop width height duration).time_end =
      (((spectrogramCrop width height duration).right : ℚ) / (width : ℚ)) * duration ∧
    0 ≤ (spectrogramCrop width height duration).left ∧
    (spectrogramCrop width height duration).left ≤
      (spectrogramCrop width height duration).right ∧
    (spectrogramCrop width height duration).right ≤ (width : ℤ) := by
  refine ⟨rfl, rfl, ?_, ?_, ?_⟩ <;>
    · simp only [spectrogramCrop]
      split
      · omega
      · have he : ((width : ℤ) - (height : ℤ)).fdiv 2 = ((width : ℤ) - (height : ℤ)) / 2 :=
          Int.fdiv_eq_ediv _ (by norm_num)
        rw [he]
        omega

/-- A PIL image size, `(width, height)`. -/
structure ImgSize where
  w : ℕ
  h : ℕ
deriving DecidableEq

/-- The size `resize_identicon` (v7_album_artwork.py lines 139-143)
produces: both dimensions scaled by `scale` and truncated with `int()`.
The source's default `scale=0.4` is modelled exactly as `2/5`. -/
def resize_identicon_size (s : ImgSize) (scale : ℚ) : ImgSize :=
  ⟨(⌊(s.w : ℚ) * scale⌋).toNat, (⌊(s.h : ℚ) * scale⌋).toNat⟩

/-- The compositing stage of `create_album_artwork_v7` (lines 175-205)
recorded as a trace: which size each layer ends at, the uniform alphas
set, the background, the order the layers are composited in, and the
identicon's paste position. -/
structure CompositeTrace where
  spectrogramResizedTo : ImgSize
  spectrogramAlpha : ℕ
  identiconSize : ImgSize
  identiconAlpha : ℕ
  backgroundColor : ℕ × ℕ × ℕ × ℕ
  backgroundSize : ImgSize
  layerOrder : List String
  identiconPosition : ℤ × ℤ
deriving DecidableEq

/-- Lines 175-202, in source order: `spectrogram.resize(identicon.size)`
happens at line 177, *before* `identicon = resize_identicon(identicon)` at
line 185, so the spectrogram is resized to the identicon's original
5000 × 5000 size; `set_image_alpha(spectrogram, 127)` (line 181);
`identicon.putalpha(255)` (line 186); an opaque black RGBA background of
the spectrogram's size (line 190); `alpha_composite` of the spectrogram
then of the identicon at the centered position (lines 194-202). -/
def composite_stage (identicon0 : ImgSize) : CompositeTrace :=
  let spectrogram := identicon0
  let identicon := resize_identicon_size identicon0 (2 / 5)
  { spectrogramResizedTo := spectrogram
    spectrogramAlpha := 127
    identiconSize := identicon
    identiconAlpha := 255
    backgroundColor := (0, 0, 0, 255)
    backgroundSize := spectrogram
    layerOrder := ["spectrogram", "identicon"]
    identiconPosition := (((spectrogram.w : ℤ) - (identicon.w : ℤ)).fdiv 2,
                          ((spectrogram.h : ℤ) - (identicon.h : ℤ)).fdiv 2) }

/-- The compositing contract as the spec states it, amended in exactly one
place: the spectrogram is resized to the identicon's *pre*-scale-down
(original) dimensions, not the post-scale-down ones.  Everything else
follows the spec's words: uniform 127 (50%) alpha on the spectrogram, full
opacity on the identicon, the spectrogram alpha-composited over an opaque
black background, the identicon composited centered on top. -/
def composite_contract_amended (identicon0 : ImgSize) : CompositeTrace :=
  let idenScaled := resize_identicon_size identicon0 (2 / 5)
  { spectrogramResizedTo := identicon0
    spectrogramAlpha := 127
    identiconSize := idenScaled
    identiconAlpha := 255
    backgroundColor := (0, 0, 0, 255)
    backgroundSize := identicon0
    layerOrder := ["spectrogram", "identicon"]
    identiconPosition := (((identicon0.w : ℤ) - (idenScaled.w : ℤ)).fdiv 2,
                          ((identicon0.h : ℤ) - (idenScaled.h : ℤ)).fdiv 2) }

/-- C5 counterexample: for the actual 5000 × 5000 identicon the code
resizes the spectrogram to 5000 × 5000 — the identicon's pre-scale-down
size — not to the post-scale-down 2000 × 2000 size the claim states. -/
theorem composite_spec_size_counterexample :
    (composite_stage ⟨5000, 5000⟩).spectrogramResizedTo ≠
      (composite_stage ⟨5000, 5000⟩).identiconSize := by
  have h : (composite_stage ⟨5000, 5000⟩).identiconSize = ⟨2000, 2000⟩ := by
    simp only [composite_stage, resize_identicon_size]
    norm_num
    all_goals rfl
  rw [h]
  simp only [composite_stage]
  intro hcontra
  exact absurd (congrArg ImgSize.w hcontra) (by norm_num)

/-- C5 amended: the compositing stage matches the spec's contract with the
single correction that the spectrogram is resized to the identicon's
original (pre-scale-down) dimensions. -/
theorem composite_stage_amended (identicon0 : ImgSize) :
    composite_stage identicon0 = composite_contract_amended identicon0 := rfl

end V7AlbumArtwork

/-- The outcome of running a Python function: a returned value, Python's
`None`, or an uncaught exception. -/
inductive PyOutcome (α : Type) where
  | ok : α → PyOutcome α
  | pyNone : PyOutcome α
  | raised : String → PyOutcome α
deriving DecidableEq

namespace CanvasGenerator

/-- The input check of `create_spotify_canvas` (canvas_generator.py lines
96-98): when the path does not exist the function prints
`Error: File does not exist` and returns `None`.  `fs` is the set of
existing paths; `.ok ()` stands for the rest of the pipeline proceeding.
Returns the printed lines along with the outcome. -/
def create_spotify_canvas_entry (fs : List String) (input_image_path : String) :
    List String × PyOutcome Unit :=
  if input_image_path ∈ fs then ([], .ok ())
  else (["Error: File does not exist"], .pyNone)

end CanvasGenerator

namespace V7AlbumArtwork

/-- `open(file_path, 'rb')` (v7_album_artwork.py line 27) raises
`FileNotFoundError` for a missing path. -/
def openFile (fs : List String) (file_path : String) : PyOutcome Unit :=
  if file_path ∈ fs then .ok () else .raised "FileNotFoundError"

/-- The file access of `hash_audio_file` (line 27): the function performs
no existence check of its own, so the `open` exception escapes it. -/
def hash_audio_file_entry (fs : List String) (file_path : String) : PyOutcome Unit :=
  openFile fs file_path

/-- `create_album_artwork_v7` (lines 145-216) wraps nothing in
`try`/`except` and performs no existence check: whatever
`hash_audio_file` raises propagates out of the pipeline uncaught. -/
def create_album_artwork_v7_entry (fs : List String) (audio_file_path : String) :
    PyOutcome Unit :=
  match hash_audio_file_entry fs audio_file_path with
  | .raised e => .raised e
  | .pyNone => .pyNone
  | .ok _ => .ok ()

end V7AlbumArtwork

/-- C9 counterexample: on a missing input path the audio pipeline raises
an uncaught `FileNotFoundError`; it does not return a null result as the
claim states for every pipeline. -/
theorem missing_input_counterexample :
    V7AlbumArtwork.create_album_artwork_v7_entry [] "missing.wav" =
      PyOutcome.raised "FileNotFoundError" ∧
    V7AlbumArtwork.create_album_artwork_v7_entry [] "missing.wav" ≠
      PyOutcome.pyNone := by
  refine ⟨rfl, ?_⟩
  decide

/-- C9 amended: for every input path that does not name an existing file,
the image pipeline (`create_spotify_canvas`) reports the missing file and
returns `None`, while the audio pipeline (`create_album_artwork_v7`)
raises an uncaught `FileNotFoundError` instead of returning a null
result. -/
theorem missing_input_behavior (fs : List String) (path : String) (hmiss : path ∉ fs) :
    CanvasGenerator.create_spotify_canvas_entry fs path =
      (["Error: File does not exist"], PyOutcome.pyNone) ∧
    V7AlbumArtwork.create_album_artwork_v7_entry fs path =
      PyOutcome.raised "FileNotFoundError" := by
  constructor
  · rw [CanvasGenerator.create_spotify_canvas_entry, if_neg hmiss]
  · rw [V7AlbumArtwork.create_album_artwork_v7_entry]
    simp [V7AlbumArtwork.hash_audio_file_entry, V7AlbumArtwork.openFile, hmiss]

/-- C9 witness: the concrete missing path on an empty filesystem. -/
theorem missing_input_behavior_witness :
    ("missing.wav" ∉ ([] : List String)) ∧
    (CanvasGenerator.create_spotify_canvas_entry [] "missing.wav" =
       (["Error: File does not exist"], PyOutcome.pyNone) ∧
     V7AlbumArtwork.create_album_artwork_v7_entry [] "missing.wav" =
       PyOutcome.raised "FileNotFoundError") :=
  ⟨by simp, missing_input_behavior [] "missing.wav" (by simp)⟩
